import Mathlib

/-!
Verification of the png_viewer_renderer export pipeline and view math.

The definitions below are shallow embeddings of the C++ sources:
  - `ExportState`/`Step` model the bounded producer/consumer export pipeline
    shared by `ExportToMP4` (src/display_image.cpp) and `ExportToMP4_MT`
    (src/linux/display_image_linux.cpp): worker threads claim frame indices
    via an atomic fetch-and-increment, insert rendered frames into a
    size-bounded index-keyed map, and a single writer drains the map strictly
    in index order.  Frame contents are a parameter `frame : Nat → α` because
    each worker computes its buffer as a pure function of the claimed index
    and the captured (read-only) view snapshot.
  - doubles are modelled as exact rationals; a C `(int)` cast is
    truncation toward zero (`cIntCast`).
-/

namespace PngViewer

/-- Truncation toward zero of a rational, the semantics of a C++
`(int)`/`static_cast<int>` cast on a `double`: floor for non-negative
values, and minus the floor of the negation for negative values. -/
def cIntCast (q : ℚ) : ℤ := if q < 0 then -⌊-q⌋ else ⌊q⌋

/-- State of one running export job.  `renderedFrames` keeps only the key set
of the `std::map<size_t, unsigned char*>`: the buffer stored under key `i` is
always `frame i`, so values are recovered from keys. -/
structure ExportState (α : Type) where
  nextFrameToRender : ℕ
  inFlight : Finset ℕ
  renderedFrames : Finset ℕ
  written : List (ℕ × α)
  nextFrameToWrite : ℕ
  interrupted : Bool

/-- Initial state at pipeline start: counters zero, no frames anywhere. -/
def initState (α : Type) : ExportState α :=
  ⟨0, ∅, ∅, [], 0, false⟩

/-- One atomic step of the export pipeline.
`claimIdx` is a worker's `nextFrameToRender.fetch_add(1)` returning an index
below `totalFrames`; `insertFrame` is a worker passing its not-full wait and
storing its buffer; `discardFrame` is the Linux worker observing the
interrupt flag after the wait and deleting its buffer without inserting;
`writeFrame` is the writer finding `nextFrameToWrite` in the map, erasing it,
writing it to the encoder pipe and incrementing; `setInterrupted` is the
asynchronous signal handler setting `g_interrupted`.  The Windows variant has
no interrupt flag, so its executions are exactly those that never use
`discardFrame`/`setInterrupted`. -/
inductive Step (totalFrames maxQueueSize : ℕ) (frame : ℕ → α) :
    ExportState α → ExportState α → Prop
  | claimIdx (s : ExportState α) (h : s.nextFrameToRender < totalFrames) :
      Step totalFrames maxQueueSize frame s
        { s with nextFrameToRender := s.nextFrameToRender + 1,
                 inFlight := insert s.nextFrameToRender s.inFlight }
  | insertFrame (s : ExportState α) (i : ℕ) (hi : i ∈ s.inFlight)
      (hq : s.renderedFrames.card < maxQueueSize) (hint : s.interrupted = false) :
      Step totalFrames maxQueueSize frame s
        { s with inFlight := s.inFlight.erase i,
                 renderedFrames := insert i s.renderedFrames }
  | discardFrame (s : ExportState α) (i : ℕ) (hi : i ∈ s.inFlight)
      (hint : s.interrupted = true) :
      Step totalFrames maxQueueSize frame s
        { s with inFlight := s.inFlight.erase i }
  | writeFrame (s : ExportState α) (hw : s.nextFrameToWrite ∈ s.renderedFrames)
      (hN : s.nextFrameToWrite < totalFrames) (hint : s.interrupted = false) :
      Step totalFrames maxQueueSize frame s
        { s with renderedFrames := s.renderedFrames.erase s.nextFrameToWrite,
                 written := s.written ++ [(s.nextFrameToWrite, frame s.nextFrameToWrite)],
                 nextFrameToWrite := s.nextFrameToWrite + 1 }
  | setInterrupted (s : ExportState α) :
      Step totalFrames maxQueueSize frame s { s with interrupted := true }

/-- States reachable from pipeline start by any interleaving of steps. -/
def Reachable (totalFrames maxQueueSize : ℕ) (frame : ℕ → α)
    (s : ExportState α) : Prop :=
  Relation.ReflTransGen (Step totalFrames maxQueueSize frame) (initState α) s

/-- Inductive invariant of the pipeline: the written prefix is exactly frames
`0..nextFrameToWrite-1` in order, the pending map respects the capacity
bound, and the writer never passes `totalFrames`. -/
def ExportInv (totalFrames maxQueueSize : ℕ) (frame : ℕ → α)
    (s : ExportState α) : Prop :=
  s.written = (List.range s.nextFrameToWrite).map (fun i => (i, frame i)) ∧
  s.renderedFrames.card ≤ maxQueueSize ∧
  s.nextFrameToWrite ≤ totalFrames

theorem step_preserves_inv {α : Type} {totalFrames maxQueueSize : ℕ}
    {frame : ℕ → α} {s t : ExportState α}
    (hst : Step totalFrames maxQueueSize frame s t)
    (hs : ExportInv totalFrames maxQueueSize frame s) :
    ExportInv totalFrames maxQueueSize frame t := by
  obtain ⟨h1, h2, h3⟩ := hs
  cases hst with
  | claimIdx h => exact ⟨h1, h2, h3⟩
  | insertFrame i hi hq hint =>
      refine ⟨h1, ?_, h3⟩
      exact le_trans (Finset.card_insert_le _ _) hq
  | discardFrame i hi hint => exact ⟨h1, h2, h3⟩
  | writeFrame hw hN hint =>
      refine ⟨?_, le_trans (Finset.card_erase_le) h2, hN⟩
      rw [List.range_succ, List.map_append, ← h1]
      rfl
  | setInterrupted => exact ⟨h1, h2, h3⟩

theorem reachable_inv {α : Type} {totalFrames maxQueueSize : ℕ}
    {frame : ℕ → α} {s : ExportState α}
    (h : Reachable totalFrames maxQueueSize frame s) :
    ExportInv totalFrames maxQueueSize frame s := by
  induction h with
  | refl => exact ⟨rfl, by simp [initState], Nat.zero_le _⟩
  | tail hab hbc ih => exact step_preserves_inv hbc ih

/-- Claim C1: for every export job over N source files and any order in which
render workers complete and insert frames into the pending map, the
sequential writer writes exactly the frames with indices 0,1,...,N-1, each
exactly once, in strictly increasing index order — never reordered, never
duplicated, never skipped — absent cancellation: at every reachable state the
written sequence is exactly frames `0..nextFrameToWrite-1` in order, its
index sequence is strictly increasing with no duplicates, and when the writer
loop finishes (`nextFrameToWrite = N`) the written sequence is exactly frames
`0..N-1`. -/
theorem claim_C1_order_invariant {α : Type} (totalFrames maxQueueSize : ℕ)
    (frame : ℕ → α) (s : ExportState α)
    (h : Reachable totalFrames maxQueueSize frame s) :
    s.written = (List.range s.nextFrameToWrite).map (fun i => (i, frame i)) ∧
    (s.written.map Prod.fst).Pairwise (· < ·) ∧
    (s.nextFrameToWrite = totalFrames →
      s.written = (List.range totalFrames).map (fun i => (i, frame i))) := by
  obtain ⟨h1, _, _⟩ := reachable_inv h
  refine ⟨h1, ?_, fun hdone => by rw [h1, hdone]⟩
  rw [h1, List.map_map]
  have : (Prod.fst ∘ fun i => (i, frame i)) = id := rfl
  rw [this, List.map_id]
  exact List.pairwise_lt_range _

/-- Concrete state of a 1-frame export run after one worker claims index 0,
renders it, inserts it, and the writer drains and writes it. -/
def c1RunState : ExportState ℕ :=
  ⟨1, (insert 0 (∅ : Finset ℕ)).erase 0, (insert 0 (∅ : Finset ℕ)).erase 0,
   [] ++ [(0, 0)], 1, false⟩

theorem c1RunState_reachable : Reachable 1 2 (fun _ => (0 : ℕ)) c1RunState := by
  have h1 : Step 1 2 (fun _ => (0 : ℕ)) (initState ℕ)
      ⟨1, insert 0 (∅ : Finset ℕ), ∅, [], 0, false⟩ :=
    Step.claimIdx (initState ℕ) (by decide)
  have h2 : Step 1 2 (fun _ => (0 : ℕ)) ⟨1, insert 0 (∅ : Finset ℕ), ∅, [], 0, false⟩
      ⟨1, (insert 0 (∅ : Finset ℕ)).erase 0, insert 0 (∅ : Finset ℕ), [], 0, false⟩ :=
    Step.insertFrame _ 0 (Finset.mem_insert_self 0 ∅) (by decide) rfl
  have h3 : Step 1 2 (fun _ => (0 : ℕ))
      ⟨1, (insert 0 (∅ : Finset ℕ)).erase 0, insert 0 (∅ : Finset ℕ), [], 0, false⟩
      c1RunState :=
    Step.writeFrame _ (Finset.mem_insert_self 0 ∅) (by decide) rfl
  exact ((Relation.ReflTransGen.refl.tail h1).tail h2).tail h3

/-- Witness for C1: the invariant evaluated at the final state of a concrete
1-frame run that claims, inserts, and writes frame 0. -/
theorem claim_C1_order_invariant_witness :
    c1RunState.written =
      (List.range c1RunState.nextFrameToWrite).map (fun i => (i, 0)) ∧
    (c1RunState.written.map Prod.fst).Pairwise (· < ·) ∧
    (c1RunState.nextFrameToWrite = 1 →
      c1RunState.written = (List.range 1).map (fun i => (i, 0))) :=
  claim_C1_order_invariant 1 2 (fun _ => 0) c1RunState c1RunState_reachable

/-- Claim C2: at every reachable state of an export job, for every worker
count ≥ 1 and every N, the pending map of rendered-but-not-yet-written frames
contains at most `maxQueueSize = 2 × workerCount` entries: a worker blocks in
its insert wait until the map's size is strictly below that bound before
inserting its frame. -/
theorem claim_C2_bounded_queue {α : Type} (totalFrames workerCount : ℕ)
    (frame : ℕ → α) (s : ExportState α) (_hW : 1 ≤ workerCount)
    (h : Reachable totalFrames (2 * workerCount) frame s) :
    s.renderedFrames.card ≤ 2 * workerCount :=
  (reachable_inv h).2.1

/-- Witness for C2: one worker, bound 2, at the initial state of a 5-file job. -/
theorem claim_C2_bounded_queue_witness :
    1 ≤ 1 ∧ (initState ℕ).renderedFrames.card ≤ 2 * 1 :=
  ⟨by decide,
   claim_C2_bounded_queue 5 1 (fun i => i) (initState ℕ) (by decide)
     Relation.ReflTransGen.refl⟩

/-- Existence of a completing schedule: from any point where all counters
agree and both buffers are empty, one worker can claim, render, insert the
next index and the writer can immediately drain it. -/
theorem can_complete_aux {α : Type} (totalFrames maxQueueSize : ℕ)
    (frame : ℕ → α) (hq : 1 ≤ maxQueueSize) :
    ∀ k, k ≤ totalFrames → ∃ s : ExportState α,
      Reachable totalFrames maxQueueSize frame s ∧
      s.nextFrameToRender = k ∧ s.inFlight = ∅ ∧ s.renderedFrames = ∅ ∧
      s.nextFrameToWrite = k ∧ s.interrupted = false := by
  intro k
  induction k with
  | zero =>
      intro _
      exact ⟨initState α, Relation.ReflTransGen.refl, rfl, rfl, rfl, rfl, rfl⟩
  | succ k ih =>
      intro hkN
      obtain ⟨s, hreach, hr, hf, hp, hw, hi⟩ := ih (Nat.le_of_succ_le hkN)
      have hkN' : k < totalFrames := hkN
      have step1 : Step totalFrames maxQueueSize frame s
          { s with nextFrameToRender := s.nextFrameToRender + 1,
                   inFlight := insert s.nextFrameToRender s.inFlight } :=
        Step.claimIdx s (by rw [hr]; exact hkN')
      have step2 : Step totalFrames maxQueueSize frame
          { s with nextFrameToRender := s.nextFrameToRender + 1,
                   inFlight := insert s.nextFrameToRender s.inFlight }
          { s with nextFrameToRender := s.nextFrameToRender + 1,
                   inFlight := (insert s.nextFrameToRender s.inFlight).erase s.nextFrameToRender,
                   renderedFrames := insert s.nextFrameToRender s.renderedFrames } :=
        Step.insertFrame
          { s with nextFrameToRender := s.nextFrameToRender + 1,
                   inFlight := insert s.nextFrameToRender s.inFlight }
          s.nextFrameToRender (Finset.mem_insert_self _ _)
          (by simp only [hp, Finset.card_empty]; exact hq) hi
      have step3 : Step totalFrames maxQueueSize frame
          { s with nextFrameToRender := s.nextFrameToRender + 1,
                   inFlight := (insert s.nextFrameToRender s.inFlight).erase s.nextFrameToRender,
                   renderedFrames := insert s.nextFrameToRender s.renderedFrames }
          { s with nextFrameToRender := s.nextFrameToRender + 1,
                   inFlight := (insert s.nextFrameToRender s.inFlight).erase s.nextFrameToRender,
                   renderedFrames := (insert s.nextFrameToRender s.renderedFrames).erase
                     s.nextFrameToWrite,
                   written := s.written ++ [(s.nextFrameToWrite, frame s.nextFrameToWrite)],
                   nextFrameToWrite := s.nextFrameToWrite + 1 } :=
        Step.writeFrame
          { s with nextFrameToRender := s.nextFrameToRender + 1,
                   inFlight := (insert s.nextFrameToRender s.inFlight).erase s.nextFrameToRender,
                   renderedFrames := insert s.nextFrameToRender s.renderedFrames }
          (by simp only [hw, hr]; exact Finset.mem_insert_self _ _)
          (by simpa [hw] using hkN') hi
      refine ⟨_, ((hreach.tail step1).tail step2).tail step3, ?_, ?_, ?_, ?_, ?_⟩
      · simpa using hr
      · simp only [hf]
        exact Finset.erase_insert (Finset.not_mem_empty _)
      · simp only [hp, hw, hr]
        exact Finset.erase_insert (Finset.not_mem_empty _)
      · simpa using hw
      · exact hi

/-- Any export job can run to completion in the model: some interleaving
reaches a state where the writer has written exactly frames `0..N-1`. -/
theorem can_complete {α : Type} (totalFrames maxQueueSize : ℕ)
    (frame : ℕ → α) (hq : 1 ≤ maxQueueSize) :
    ∃ s : ExportState α, Reachable totalFrames maxQueueSize frame s ∧
      s.nextFrameToWrite = totalFrames ∧
      s.written = (List.range totalFrames).map (fun i => (i, frame i)) := by
  obtain ⟨s, hreach, _, _, _, hw, _⟩ :=
    can_complete_aux totalFrames maxQueueSize frame hq totalFrames le_rfl
  exact ⟨s, hreach, hw, by rw [(reachable_inv hreach).1, hw]⟩

/-- Wait predicate of the worker's not-full wait in the Windows export,
`queueNotFull.wait(lock, [&]{ return renderedFrames.size() < maxQueueSize; })`
(src/display_image.cpp lines 271-273).  It consults only the map size. -/
def winQueueNotFullPred (queueSize maxQueueSize : ℕ) : Bool :=
  decide (queueSize < maxQueueSize)

/-- Wait predicate of the writer's wait in the Windows export,
`queueNotEmpty.wait(lock, [&]{ return renderedFrames.find(nextFrameToWrite)
!= renderedFrames.end(); })` (src/display_image.cpp lines 298-300). -/
def winQueueNotEmptyPred (renderedFrames : Finset ℕ) (nextFrameToWrite : ℕ) : Bool :=
  decide (nextFrameToWrite ∈ renderedFrames)

/-- Wait predicate of the worker's not-full wait in the Linux export,
`return renderedFrames.size() < maxQueueSize || g_interrupted.load();`
(src/linux/display_image_linux.cpp lines 1022-1024). -/
def linuxQueueNotFullPred (queueSize maxQueueSize : ℕ) (interrupted : Bool) : Bool :=
  decide (queueSize < maxQueueSize) || interrupted

/-- Wait predicate of the writer's wait in the Linux export,
`return renderedFrames.find(nextFrameToWrite) != renderedFrames.end() ||
g_interrupted.load();` (src/linux/display_image_linux.cpp lines 1048-1051). -/
def linuxQueueNotEmptyPred (renderedFrames : Finset ℕ) (nextFrameToWrite : ℕ)
    (interrupted : Bool) : Bool :=
  decide (nextFrameToWrite ∈ renderedFrames) || interrupted

/-- Guard of the Linux writer loop,
`while (nextFrameToWrite < totalFrames && !g_interrupted.load())`
(src/linux/display_image_linux.cpp line 1043). -/
def linuxWriterLoopGuard (nextFrameToWrite totalFrames : ℕ) (interrupted : Bool) : Bool :=
  decide (nextFrameToWrite < totalFrames) && !interrupted

/-- Counterexample to claim C3 as stated: the Windows export's blocking waits
do not include any cancellation flag in their predicates — with a full queue
(size 2 = 2 × 1 worker) the worker's wait predicate is false and stays false
whatever the cancellation state, and the writer's wait predicate on an empty
map is likewise false, whereas the Linux predicate with the flag set
unblocks.  So not every blocking wait in the export pipeline re-checks the
cancellation flag. -/
theorem claim_C3_counterexample :
    winQueueNotFullPred 2 2 = false ∧
    winQueueNotEmptyPred (∅ : Finset ℕ) 0 = false ∧
    linuxQueueNotFullPred 2 2 true = true ∧
    linuxQueueNotEmptyPred (∅ : Finset ℕ) 0 true = true := by
  decide

/-- Claim C3 (amended): in the Linux export (`ExportToMP4_MT`) every blocking
wait — the worker's not-full wait and the writer's wait for its next required
index — includes the process-wide cancellation flag in its wait predicate, so
that once the flag is set every such wait predicate is true (every waiter
unblocks), the writer loop guard is false (the job stops), and at every
reachable state the number of frames written is ≤ N; the Windows export
(`ExportToMP4`) has no cancellation flag and its wait predicates consult only
the queue state. -/
theorem claim_C3_cancellation_unblocks {α : Type} (totalFrames maxQueueSize : ℕ)
    (frame : ℕ → α) (s : ExportState α)
    (h : Reachable totalFrames maxQueueSize frame s) :
    (∀ queueSize maxQ, linuxQueueNotFullPred queueSize maxQ true = true) ∧
    (∀ pending next, linuxQueueNotEmptyPred pending next true = true) ∧
    (∀ next total, linuxWriterLoopGuard next total true = false) ∧
    s.written.length ≤ totalFrames := by
  refine ⟨fun _ _ => by simp [linuxQueueNotFullPred],
          fun _ _ => by simp [linuxQueueNotEmptyPred],
          fun _ _ => by simp [linuxWriterLoopGuard], ?_⟩
  obtain ⟨h1, _, h3⟩ := reachable_inv h
  rw [h1, List.length_map, List.length_range]
  exact h3

/-- Witness for C3 (amended): evaluated at the initial state of a job with
N = 1000 and 8 workers, as in the spec's responsiveness scenario. -/
theorem claim_C3_cancellation_unblocks_witness :
    (∀ queueSize maxQ, linuxQueueNotFullPred queueSize maxQ true = true) ∧
    (∀ pending next, linuxQueueNotEmptyPred pending next true = true) ∧
    (∀ next total, linuxWriterLoopGuard next total true = false) ∧
    (initState ℕ).written.length ≤ 1000 :=
  claim_C3_cancellation_unblocks 1000 16 (fun i => i) (initState ℕ)
    Relation.ReflTransGen.refl

/-- Status of one export job as reported by the export functions. -/
inductive ExportStatus : Type
  | noImages : ExportStatus
  | failed : ExportStatus
  | completed : ExportStatus
  | cancelled : ExportStatus
deriving DecidableEq

/-- Observable outcome of one export call: final status, frames written to
the encoder pipe, worker threads spawned, and whether the queue state
(mutex, condition variables, pending map) was ever created. -/
structure ExportOutcome where
  status : ExportStatus
  framesWritten : ℕ
  workersSpawned : ℕ
  queueCreated : Bool
deriving DecidableEq

/-- Top-level control flow of `ExportToMP4_MT`
(src/linux/display_image_linux.cpp lines 929-984, same shape as
`ExportToMP4`, src/display_image.cpp lines 135-196): if the file list is
empty the function returns at once; otherwise `popen`/`_popen` is attempted
before any synchronization state or worker thread exists, and if it fails the
function prints an error and returns; only otherwise does the pipeline
(abstracted here as the `runPipeline` outcome, modelled by `Step`) run. -/
def exportOutcome (totalFrames : ℕ) (encoderStarted : Bool)
    (runPipeline : ExportOutcome) : ExportOutcome :=
  if totalFrames = 0 then ⟨ExportStatus.noImages, 0, 0, false⟩
  else if !encoderStarted then ⟨ExportStatus.failed, 0, 0, false⟩
  else runPipeline

/-- Claim C7: if the encoder subprocess cannot be started, the export job
fails and returns immediately: no worker threads are created, no frames are
rendered or written, and no pending-queue state is created — whatever the
rest of the pipeline would have done. -/
theorem claim_C7_sink_unavailable (totalFrames : ℕ) (runPipeline : ExportOutcome)
    (hN : totalFrames ≠ 0) :
    exportOutcome totalFrames false runPipeline =
      ⟨ExportStatus.failed, 0, 0, false⟩ := by
  simp [exportOutcome, hN]

/-- Witness for C7: a 3-frame job whose encoder fails to start. -/
theorem claim_C7_sink_unavailable_witness :
    (3 : ℕ) ≠ 0 ∧
    exportOutcome 3 false ⟨ExportStatus.completed, 3, 8, true⟩ =
      ⟨ExportStatus.failed, 0, 0, false⟩ :=
  ⟨by decide, claim_C7_sink_unavailable 3 ⟨ExportStatus.completed, 3, 8, true⟩ (by decide)⟩

/-- Progress-report condition of the Windows writer loop,
`if (nextFrameToWrite % 10 == 0 || nextFrameToWrite == totalFrames)`
(src/display_image.cpp line 314), evaluated after the post-write increment,
so `nextFrameToWrite` is the count of frames written so far. -/
def winProgressReported (framesWritten totalFrames : ℕ) : Bool :=
  decide (framesWritten % 10 = 0) || decide (framesWritten = totalFrames)

/-- Progress-report condition of the Linux writer loop: the progress line
(frame count, percent, fps, ETA) is printed unconditionally on every loop
iteration (src/linux/display_image_linux.cpp lines 1065-1082). -/
def linuxProgressReported (framesWritten totalFrames : ℕ) : Bool :=
  true

/-- Counterexample to claim C8 as stated: in the Linux export the writer
emits a progress report after frame 1 of 100, although 1 is neither a
multiple of 10 nor the total frame count — progress is not emitted only
every 10 frames and on completion. -/
theorem claim_C8_counterexample :
    linuxProgressReported 1 100 = true ∧ ¬(1 % 10 = 0 ∨ 1 = 100) := by
  decide

/-- Claim C8 (amended): the Windows writer loop emits a progress report
exactly when the count of frames written so far is a multiple of 10 or
equals the total frame count; the Linux writer loop emits a progress report
after every frame. -/
theorem claim_C8_progress_condition (framesWritten totalFrames : ℕ) :
    (winProgressReported framesWritten totalFrames = true ↔
      (framesWritten % 10 = 0 ∨ framesWritten = totalFrames)) ∧
    linuxProgressReported framesWritten totalFrames = true := by
  simp [winProgressReported, linuxProgressReported]

/-- One RGB24 pixel. -/
abbrev RGB : Type := ℕ × ℕ × ℕ

/-- GetFitScale (src/common/math_utils.h lines 11-16): the base scale that
fits the image in the window; returns 1.0 when a dimension is zero. -/
def getFitScale (windowWidth windowHeight imageWidth imageHeight : ℕ) : ℚ :=
  if imageWidth = 0 ∨ imageHeight = 0 then 1
  else min ((windowWidth : ℚ) / (imageWidth : ℚ)) ((windowHeight : ℚ) / (imageHeight : ℚ))

/-- RenderParams (src/common/math_utils.h lines 80-86), with the C++ `double`
fields as rationals and the `int` fields as integers. -/
structure RenderParamsQ where
  currentScale : ℚ
  centerX : ℚ
  centerY : ℚ
  visibleWidth : ℚ
  visibleHeight : ℚ
  srcX : ℤ
  srcY : ℤ
  srcW : ℤ
  srcH : ℤ
  dstX : ℤ
  dstY : ℤ
  dstW : ℤ
  dstH : ℤ

/-- CalculateRenderParams (src/common/math_utils.h lines 88-120): source and
destination rectangles for the current view, including the source-rectangle
clamping to the image bounds. -/
def calculateRenderParams (zoomLevel panX panY : ℚ)
    (windowWidth windowHeight imageWidth imageHeight : ℕ) : RenderParamsQ :=
  let fitScale := getFitScale windowWidth windowHeight imageWidth imageHeight
  let currentScale := fitScale * zoomLevel
  let visibleWidth := (windowWidth : ℚ) / currentScale
  let visibleHeight := (windowHeight : ℚ) / currentScale
  let centerX := (imageWidth : ℚ) / 2 + panX
  let centerY := (imageHeight : ℚ) / 2 + panY
  let srcX0 := cIntCast (centerX - visibleWidth / 2)
  let srcY0 := cIntCast (centerY - visibleHeight / 2)
  let srcW0 := cIntCast visibleWidth
  let srcH0 := cIntCast visibleHeight
  let srcX1 := if srcX0 < 0 then 0 else srcX0
  let srcY1 := if srcY0 < 0 then 0 else srcY0
  let srcW1 := if srcX1 + srcW0 > (imageWidth : ℤ) then (imageWidth : ℤ) - srcX1 else srcW0
  let srcH1 := if srcY1 + srcH0 > (imageHeight : ℤ) then (imageHeight : ℤ) - srcY1 else srcH0
  { currentScale := currentScale, centerX := centerX, centerY := centerY,
    visibleWidth := visibleWidth, visibleHeight := visibleHeight,
    srcX := srcX1, srcY := srcY1, srcW := srcW1, srcH := srcH1,
    dstX := cIntCast (((srcX1 : ℚ) - (centerX - visibleWidth / 2)) * currentScale),
    dstY := cIntCast (((srcY1 : ℚ) - (centerY - visibleHeight / 2)) * currentScale),
    dstW := cIntCast ((srcW1 : ℚ) * currentScale),
    dstH := cIntCast ((srcH1 : ℚ) * currentScale) }

/-- Pan conversion of the Linux export renderer (RenderViewToBufferHQ,
src/linux/display_image_linux.cpp lines 51-56): `scaleFactor = (double)srcW /
displayedImageW; scaledView.panX *= scaleFactor`. -/
def linuxScaledPanX (panX : ℚ) (srcW displayedImageW : ℕ) : ℚ :=
  panX * ((srcW : ℚ) / (displayedImageW : ℚ))

/-- Pan conversion of the Linux export renderer for the Y component
(src/linux/display_image_linux.cpp line 57): the same `scaleFactor`, derived
from widths, is applied to `panY`. -/
def linuxScaledPanY (panY : ℚ) (srcW displayedImageW : ℕ) : ℚ :=
  panY * ((srcW : ℚ) / (displayedImageW : ℚ))

/-- Pan conversion of the Windows export render worker
(src/display_image.cpp line 240): `panXOriginal = capturedPanX *
capturedShrinkFactor`. -/
def winPanXOriginal (capturedPanX : ℚ) (capturedShrinkFactor : ℕ) : ℚ :=
  capturedPanX * (capturedShrinkFactor : ℚ)

/-- Pan conversion of the Windows export render worker for the Y component
(src/display_image.cpp line 241). -/
def winPanYOriginal (capturedPanY : ℚ) (capturedShrinkFactor : ℕ) : ℚ :=
  capturedPanY * (capturedShrinkFactor : ℚ)

/-- Preview dimension produced by LoadAndShrinkImage
(src/common/image_loader.cpp line 48): `newWidth = w / shrinkFactor`,
C++ integer division. -/
def shrunkWidth (w shrinkFactor : ℕ) : ℕ := w / shrinkFactor

/-- Per-pixel output of the Linux export renderer RenderViewToBufferHQ
(src/linux/display_image_linux.cpp lines 39-91): scale the captured pan to
full resolution, compute the source/destination rectangles with
CalculateRenderParams, and map every output pixel inside the destination
rectangle through the rectangle pair; pixels outside it are black. -/
def linuxRenderPixel (srcW srcH : ℕ) (zoomLevel panX panY : ℚ)
    (windowWidth windowHeight displayedImageW displayedImageH : ℕ)
    (src : ℕ → ℕ → RGB) (x y : ℕ) : RGB :=
  let scaledPanX := linuxScaledPanX panX srcW displayedImageW
  let scaledPanY := linuxScaledPanY panY srcW displayedImageW
  let p := calculateRenderParams zoomLevel scaledPanX scaledPanY
    windowWidth windowHeight srcW srcH
  if (x : ℤ) ≥ p.dstX ∧ (x : ℤ) < p.dstX + p.dstW ∧
     (y : ℤ) ≥ p.dstY ∧ (y : ℤ) < p.dstY + p.dstH then
    let fx : ℚ := (((x : ℤ) - p.dstX : ℤ) : ℚ) / (p.dstW : ℚ)
    let fy : ℚ := (((y : ℤ) - p.dstY : ℤ) : ℚ) / (p.dstH : ℚ)
    let sx : ℤ := p.srcX + cIntCast (fx * (p.srcW : ℚ))
    let sy : ℤ := p.srcY + cIntCast (fy * (p.srcH : ℚ))
    if 0 ≤ sx ∧ sx < (srcW : ℤ) ∧ 0 ≤ sy ∧ sy < (srcH : ℤ) then
      src sx.toNat sy.toNat
    else (0, 0, 0)
  else (0, 0, 0)

/-- Per-pixel output of the Windows export render worker
(src/display_image.cpp lines 234-263): inverse-map the output pixel to a
source coordinate, truncate, and copy the source pixel if the truncated
coordinate is inside the decoded image, else leave the buffer black. -/
def winRenderPixel (capturedWinW capturedWinH capturedOrigW capturedOrigH : ℕ)
    (capturedZoom panXOriginal panYOriginal : ℚ) (w h : ℕ)
    (src : ℕ → ℕ → RGB) (outX outY : ℕ) : RGB :=
  let scaleX := (capturedWinW : ℚ) / (capturedOrigW : ℚ)
  let scaleY := (capturedWinH : ℚ) / (capturedOrigH : ℚ)
  let fitScale := if scaleX < scaleY then scaleX else scaleY
  let currentScale := fitScale * capturedZoom
  let centerX := (w : ℚ) / 2 + panXOriginal
  let centerY := (h : ℚ) / 2 + panYOriginal
  let imgX := ((outX : ℚ) - (capturedWinW : ℚ) / 2) / currentScale + centerX
  let imgY := ((outY : ℚ) - (capturedWinH : ℚ) / 2) / currentScale + centerY
  let srcX := cIntCast imgX
  let srcY := cIntCast imgY
  if 0 ≤ srcX ∧ srcX < (w : ℤ) ∧ 0 ≤ srcY ∧ srcY < (h : ℤ) then
    src srcX.toNat srcY.toNat
  else (0, 0, 0)

/-- Whole-frame output of the Windows export render worker: the buffer is
allocated, cleared to zero, and then every pixel of the
`capturedWinW × capturedWinH` viewport is written row-major. -/
def winRenderFrame (capturedWinW capturedWinH capturedOrigW capturedOrigH : ℕ)
    (capturedZoom panXOriginal panYOriginal : ℚ) (w h : ℕ)
    (src : ℕ → ℕ → RGB) : List RGB :=
  (List.range capturedWinH).flatMap (fun outY =>
    (List.range capturedWinW).map (fun outX =>
      winRenderPixel capturedWinW capturedWinH capturedOrigW capturedOrigH
        capturedZoom panXOriginal panYOriginal w h src outX outY))

/-- Per-pixel sampling formula as the spec words it: `srcX = (x -
viewportW/2)/scale + sourceW/2 + panSourceX` (srcY analogous), `scale =
min(viewportW/sourceW, viewportH/sourceH) × zoom`, truncate to integer, copy
the source pixel when the truncated coordinate is in `[0,sourceW) ×
[0,sourceH)`, else black. -/
def specRenderPixel (viewportW viewportH sourceW sourceH : ℕ)
    (zoom panSourceX panSourceY : ℚ) (src : ℕ → ℕ → RGB) (x y : ℕ) : RGB :=
  let scale := min ((viewportW : ℚ) / (sourceW : ℚ)) ((viewportH : ℚ) / (sourceH : ℚ)) * zoom
  let srcX := cIntCast (((x : ℚ) - (viewportW : ℚ) / 2) / scale + ((sourceW : ℚ) / 2 + panSourceX))
  let srcY := cIntCast (((y : ℚ) - (viewportH : ℚ) / 2) / scale + ((sourceH : ℚ) / 2 + panSourceY))
  if 0 ≤ srcX ∧ srcX < (sourceW : ℤ) ∧ 0 ≤ srcY ∧ srcY < (sourceH : ℤ) then
    src srcX.toNat srcY.toNat
  else (0, 0, 0)

theorem ite_lt_min (a b : ℚ) : (if a < b then a else b) = min a b := by
  split_ifs with hlt
  · exact (min_eq_left hlt.le).symm
  · exact (min_eq_right (not_lt.mp hlt)).symm

/-- Counterexample to claim C5 as stated: the Linux export renderer does not
satisfy the claimed per-pixel formula.  With a 4×4 source, 4×4 viewport,
zoom 3 and zero pan, the destination rectangle truncates to x ∈ [-1, 2), so
output pixel (2,0) is painted black although the claimed formula maps it to
the in-range source coordinate (2,1). -/
theorem claim_C5_counterexample :
    linuxRenderPixel 4 4 3 0 0 4 4 4 4 (fun _ _ => (7, 7, 7)) 2 0 = (0, 0, 0) ∧
    specRenderPixel 4 4 4 4 3 0 0 (fun _ _ => (7, 7, 7)) 2 0 = (7, 7, 7) := by
  have hp : calculateRenderParams 3 (linuxScaledPanX 0 4 4) (linuxScaledPanY 0 4 4) 4 4 4 4 =
      ⟨3, 2, 2, 4/3, 4/3, 1, 1, 1, 1, -1, -1, 3, 3⟩ := by
    unfold calculateRenderParams getFitScale cIntCast linuxScaledPanX linuxScaledPanY
    norm_num
  constructor
  · simp only [linuxRenderPixel]
    rw [hp]
    norm_num
  · unfold specRenderPixel cIntCast
    norm_num

/-- Claim C5 (amended): the Windows export render worker satisfies the
claimed per-pixel formula — when the captured original dimensions equal the
decoded source image's dimensions (`sourceW × sourceH`), every output pixel
(x,y) of its fully initialized `viewportW × viewportH` buffer equals the
source pixel at the truncated coordinate `srcX = (x - viewportW/2)/scale +
sourceW/2 + panSourceX` (srcY analogous), `scale = min(viewportW/sourceW,
viewportH/sourceH) × zoom`, when that coordinate is in `[0,sourceW) ×
[0,sourceH)`, and black otherwise.  The Linux export renderer instead maps
pixels through truncated source/destination rectangles and can differ (see
the counterexample). -/
theorem claim_C5_render_formula (viewportW viewportH sourceW sourceH : ℕ)
    (zoom panSourceX panSourceY : ℚ) (src : ℕ → ℕ → RGB) (x y : ℕ) :
    winRenderPixel viewportW viewportH sourceW sourceH zoom panSourceX panSourceY
      sourceW sourceH src x y =
      specRenderPixel viewportW viewportH sourceW sourceH zoom panSourceX panSourceY src x y ∧
    (winRenderFrame viewportW viewportH sourceW sourceH zoom panSourceX panSourceY
      sourceW sourceH src).length = viewportW * viewportH := by
  constructor
  · simp only [winRenderPixel, specRenderPixel, ite_lt_min]
  · simp only [winRenderFrame, List.length_flatMap, Function.comp_def,
      List.length_map, List.length_range]
    simp [List.sum_replicate, Nat.mul_comm, List.map_const]

/-- Counterexample to claim C4 as stated: the Windows export render worker
converts pan to source units by multiplying by the shrink factor, not by the
ratio of source to displayed dimensions.  For a 1001-pixel-wide source at
shrink factor 2 the displayed width is 500 and the ratio is 1001/500 ≠ 2, so
for pan = 1 the code computes 2 while the claimed conversion gives
1001/500. -/
theorem claim_C4_counterexample :
    shrunkWidth 1001 2 = 500 ∧
    winPanXOriginal 1 2 ≠ 1 * ((1001 : ℚ) / ((shrunkWidth 1001 2 : ℕ) : ℚ)) := by
  refine ⟨rfl, ?_⟩
  norm_num [winPanXOriginal, shrunkWidth]

/-- Claim C4 (amended): the Linux export renderer multiplies both pan
components by `sourceW / displayedW` (the X component is exactly as the
claim states; the Y component also uses the width ratio); the Windows export
render worker multiplies both pan components by the preview shrink factor,
which coincides with `sourceW / displayedW` exactly when the preview shrink
division is exact (`sourceW = shrink × displayedW`). -/
theorem claim_C4_pan_scaling (pan : ℚ) (srcW displayedW shrink : ℕ)
    (hexact : srcW = shrink * displayedW) (hd : displayedW ≠ 0) :
    linuxScaledPanX pan srcW displayedW = pan * ((srcW : ℚ) / (displayedW : ℚ)) ∧
    linuxScaledPanY pan srcW displayedW = pan * ((srcW : ℚ) / (displayedW : ℚ)) ∧
    winPanXOriginal pan shrink = pan * ((srcW : ℚ) / (displayedW : ℚ)) ∧
    winPanYOriginal pan shrink = pan * ((srcW : ℚ) / (displayedW : ℚ)) := by
  have hratio : ((srcW : ℚ) / (displayedW : ℚ)) = (shrink : ℚ) := by
    subst hexact
    push_cast
    field_simp
  refine ⟨rfl, rfl, ?_, ?_⟩ <;> rw [hratio] <;> rfl

/-- Witness for C4 (amended): pan 3, source width 1000, shrink 2, displayed
width 500. -/
theorem claim_C4_pan_scaling_witness :
    (1000 = 2 * 500 ∧ (500 : ℕ) ≠ 0) ∧
    (linuxScaledPanX 3 1000 500 = 3 * ((1000 : ℚ) / (500 : ℚ)) ∧
     linuxScaledPanY 3 1000 500 = 3 * ((1000 : ℚ) / (500 : ℚ)) ∧
     winPanXOriginal 3 2 = 3 * ((1000 : ℚ) / (500 : ℚ)) ∧
     winPanYOriginal 3 2 = 3 * ((1000 : ℚ) / (500 : ℚ))) :=
  ⟨⟨by decide, by decide⟩, claim_C4_pan_scaling 3 1000 500 2 (by decide) (by decide)⟩

/-- Buffer produced by one worker for one claimed index (renderWorker,
src/display_image.cpp lines 225-266 and src/linux/display_image_linux.cpp
lines 1006-1018): the buffer is allocated and zero-filled with `memset`;
when `stbi_load` returns null the all-zero buffer is kept unchanged,
otherwise the decoded image is rendered into it. -/
def renderResult {Img : Type} (frameBufferSize : ℕ) (render : Img → List ℕ) :
    Option Img → List ℕ
  | none => List.replicate frameBufferSize 0
  | some img => render img

/-- Claim C6: for every export job and every index k whose source file fails
to decode, the claiming worker still inserts a frame at index k that is
all-black (every byte 0) and of full viewport size
(`frameBufferSize = viewportW × viewportH × 3`), the job continues and
completes with all N frames written, and the frames at every other index are
the same as they would be without the failure. -/
theorem claim_C6_decode_failure {Img : Type} (totalFrames maxQueueSize k frameBufferSize : ℕ)
    (render : Img → List ℕ) (decoded : ℕ → Option Img)
    (_hk : k < totalFrames) (hq : 1 ≤ maxQueueSize) :
    renderResult frameBufferSize render (Function.update decoded k none k) =
      List.replicate frameBufferSize 0 ∧
    (renderResult frameBufferSize render (Function.update decoded k none k)).length =
      frameBufferSize ∧
    (∀ j, j ≠ k →
      renderResult frameBufferSize render (Function.update decoded k none j) =
        renderResult frameBufferSize render (decoded j)) ∧
    (∃ s : ExportState (List ℕ),
      Reachable totalFrames maxQueueSize
        (fun i => renderResult frameBufferSize render (Function.update decoded k none i)) s ∧
      s.nextFrameToWrite = totalFrames ∧
      s.written = (List.range totalFrames).map
        (fun i => (i, renderResult frameBufferSize render (Function.update decoded k none i)))) := by
  refine ⟨?_, ?_, ?_, ?_⟩
  · rw [Function.update_same]
    rfl
  · rw [Function.update_same]
    exact List.length_replicate _ _
  · intro j hj
    rw [Function.update_noteq hj]
  · exact can_complete totalFrames maxQueueSize _ hq

/-- Witness for C6: a 2-frame job whose frame 0 fails to decode, queue bound
2, 3-byte frames. -/
theorem claim_C6_decode_failure_witness :
    (0 < 2 ∧ 1 ≤ 2) ∧
    (renderResult 3 (fun _ : Unit => [1, 2, 3])
        (Function.update (fun _ => some ()) 0 none 0) = List.replicate 3 0 ∧
     (renderResult 3 (fun _ : Unit => [1, 2, 3])
        (Function.update (fun _ => some ()) 0 none 0)).length = 3 ∧
     (∀ j, j ≠ 0 →
       renderResult 3 (fun _ : Unit => [1, 2, 3])
         (Function.update (fun _ => some ()) 0 none j) =
       renderResult 3 (fun _ : Unit => [1, 2, 3]) ((fun _ => some ()) j)) ∧
     (∃ s : ExportState (List ℕ),
       Reachable 2 2
         (fun i => renderResult 3 (fun _ : Unit => [1, 2, 3])
           (Function.update (fun _ => some ()) 0 none i)) s ∧
       s.nextFrameToWrite = 2 ∧
       s.written = (List.range 2).map
         (fun i => (i, renderResult 3 (fun _ : Unit => [1, 2, 3])
           (Function.update (fun _ => some ()) 0 none i))))) :=
  ⟨⟨by decide, by decide⟩,
   claim_C6_decode_failure 2 2 0 3 (fun _ : Unit => [1, 2, 3]) (fun _ => some ())
     (by decide) (by decide)⟩

/-- ViewState (src/common/frame_types.h lines 36-56), restricted to the
fields the view math reads or writes. -/
structure ViewStateQ where
  zoomLevel : ℚ
  panX : ℚ
  panY : ℚ
  lastMouseX : ℤ
  lastMouseY : ℤ

/-- AppSettings fields used by the view math (src/common/frame_types.h
lines 20-33). -/
structure AppSettingsQ where
  windowWidth : ℕ
  windowHeight : ℕ
  minZoom : ℚ
  maxZoom : ℚ

/-- Semantics of `std::clamp(v, lo, hi)` (well defined for lo ≤ hi). -/
def stdClamp (v lo hi : ℚ) : ℚ :=
  if v < lo then lo else if hi < v then hi else v

/-- ClampPan (src/common/math_utils.h lines 19-33): clamp the pan offsets so
the visible area stays inside the image. -/
def clampPan (view : ViewStateQ) (settings : AppSettingsQ)
    (imageWidth imageHeight : ℕ) : ViewStateQ :=
  let fitScale := getFitScale settings.windowWidth settings.windowHeight imageWidth imageHeight
  let currentScale := fitScale * view.zoomLevel
  let visibleWidth := (settings.windowWidth : ℚ) / currentScale
  let visibleHeight := (settings.windowHeight : ℚ) / currentScale
  let maxPanX := max 0 (((imageWidth : ℚ) - visibleWidth) / 2)
  let maxPanY := max 0 (((imageHeight : ℚ) - visibleHeight) / 2)
  { view with panX := stdClamp view.panX (-maxPanX) maxPanX,
              panY := stdClamp view.panY (-maxPanY) maxPanY }

/-- ApplyZoom (src/common/math_utils.h lines 36-57): zoom about the mouse
position, clamp the zoom level to the settings limits, recompute pan so the
mouse stays over the same image point, then ClampPan. -/
def applyZoom (view : ViewStateQ) (settings : AppSettingsQ)
    (imageWidth imageHeight : ℕ) (mouseX mouseY : ℤ) (zoomFactor : ℚ) : ViewStateQ :=
  let fitScale := getFitScale settings.windowWidth settings.windowHeight imageWidth imageHeight
  let oldScale := fitScale * view.zoomLevel
  let mouseImgX := ((mouseX : ℚ) - (settings.windowWidth : ℚ) / 2) / oldScale +
    (imageWidth : ℚ) / 2 + view.panX
  let mouseImgY := ((mouseY : ℚ) - (settings.windowHeight : ℚ) / 2) / oldScale +
    (imageHeight : ℚ) / 2 + view.panY
  let newZoom := stdClamp (view.zoomLevel * zoomFactor) settings.minZoom settings.maxZoom
  let newScale := fitScale * newZoom
  let view1 := { view with
                 zoomLevel := newZoom,
                 panX := mouseImgX - (imageWidth : ℚ) / 2 -
                   ((mouseX : ℚ) - (settings.windowWidth : ℚ) / 2) / newScale,
                 panY := mouseImgY - (imageHeight : ℚ) / 2 -
                   ((mouseY : ℚ) - (settings.windowHeight : ℚ) / 2) / newScale }
  clampPan view1 settings imageWidth imageHeight

/-- ApplyPan (src/common/math_utils.h lines 60-77): convert the mouse drag
to image coordinates, add it to the pan, ClampPan, record the mouse. -/
def applyPan (view : ViewStateQ) (settings : AppSettingsQ)
    (imageWidth imageHeight : ℕ) (mouseX mouseY : ℤ) : ViewStateQ :=
  let fitScale := getFitScale settings.windowWidth settings.windowHeight imageWidth imageHeight
  let currentScale := fitScale * view.zoomLevel
  let dx := ((view.lastMouseX - mouseX : ℤ) : ℚ) / currentScale
  let dy := ((view.lastMouseY - mouseY : ℤ) : ℚ) / currentScale
  let view1 := { view with panX := view.panX + dx, panY := view.panY + dy }
  let view2 := clampPan view1 settings imageWidth imageHeight
  { view2 with lastMouseX := mouseX, lastMouseY := mouseY }

theorem stdClamp_bounds (v lo hi : ℚ) (h : lo ≤ hi) :
    lo ≤ stdClamp v lo hi ∧ stdClamp v lo hi ≤ hi := by
  unfold stdClamp
  split_ifs <;> constructor <;> linarith

theorem clampPan_zoomLevel (view : ViewStateQ) (settings : AppSettingsQ)
    (imageWidth imageHeight : ℕ) :
    (clampPan view settings imageWidth imageHeight).zoomLevel = view.zoomLevel := rfl

theorem clampPan_panX_le (view : ViewStateQ) (settings : AppSettingsQ)
    (imageWidth imageHeight : ℕ) :
    |(clampPan view settings imageWidth imageHeight).panX| ≤
      max 0 (((imageWidth : ℚ) - (settings.windowWidth : ℚ) /
        (getFitScale settings.windowWidth settings.windowHeight imageWidth imageHeight *
          view.zoomLevel)) / 2) := by
  simp only [clampPan]
  set m := max 0 (((imageWidth : ℚ) - (settings.windowWidth : ℚ) /
    (getFitScale settings.windowWidth settings.windowHeight imageWidth imageHeight *
      view.zoomLevel)) / 2) with hm
  have h0 : (0 : ℚ) ≤ m := le_max_left _ _
  have h := stdClamp_bounds view.panX (-m) m (le_trans (neg_nonpos.mpr h0) h0)
  exact abs_le.mpr h

theorem clampPan_panY_le (view : ViewStateQ) (settings : AppSettingsQ)
    (imageWidth imageHeight : ℕ) :
    |(clampPan view settings imageWidth imageHeight).panY| ≤
      max 0 (((imageHeight : ℚ) - (settings.windowHeight : ℚ) /
        (getFitScale settings.windowWidth settings.windowHeight imageWidth imageHeight *
          view.zoomLevel)) / 2) := by
  simp only [clampPan]
  set m := max 0 (((imageHeight : ℚ) - (settings.windowHeight : ℚ) /
    (getFitScale settings.windowWidth settings.windowHeight imageWidth imageHeight *
      view.zoomLevel)) / 2) with hm
  have h0 : (0 : ℚ) ≤ m := le_max_left _ _
  have h := stdClamp_bounds view.panY (-m) m (le_trans (neg_nonpos.mpr h0) h0)
  exact abs_le.mpr h

/-- Claim C10: after every call to ApplyZoom or ApplyPan on a view state
(each ends by calling ClampPan), the resulting state satisfies: zoomLevel
lies within [settings.minZoom, settings.maxZoom] (ApplyZoom clamps it;
ApplyPan leaves it unchanged), and |panX| ≤ max(0, (imageWidth -
windowWidth/(fitScale × zoomLevel))/2) with the analogous bound for panY. -/
theorem claim_C10_view_invariants (view : ViewStateQ) (settings : AppSettingsQ)
    (imageWidth imageHeight : ℕ) (mouseX mouseY : ℤ) (zoomFactor : ℚ)
    (hz : settings.minZoom ≤ settings.maxZoom)
    (hpre : settings.minZoom ≤ view.zoomLevel ∧ view.zoomLevel ≤ settings.maxZoom) :
    (settings.minZoom ≤
        (applyZoom view settings imageWidth imageHeight mouseX mouseY zoomFactor).zoomLevel ∧
      (applyZoom view settings imageWidth imageHeight mouseX mouseY zoomFactor).zoomLevel ≤
        settings.maxZoom ∧
      |(applyZoom view settings imageWidth imageHeight mouseX mouseY zoomFactor).panX| ≤
        max 0 (((imageWidth : ℚ) - (settings.windowWidth : ℚ) /
          (getFitScale settings.windowWidth settings.windowHeight imageWidth imageHeight *
            (applyZoom view settings imageWidth imageHeight mouseX mouseY
              zoomFactor).zoomLevel)) / 2) ∧
      |(applyZoom view settings imageWidth imageHeight mouseX mouseY zoomFactor).panY| ≤
        max 0 (((imageHeight : ℚ) - (settings.windowHeight : ℚ) /
          (getFitScale settings.windowWidth settings.windowHeight imageWidth imageHeight *
            (applyZoom view settings imageWidth imageHeight mouseX mouseY
              zoomFactor).zoomLevel)) / 2)) ∧
    ((applyPan view settings imageWidth imageHeight mouseX mouseY).zoomLevel =
        view.zoomLevel ∧
      settings.minZoom ≤
        (applyPan view settings imageWidth imageHeight mouseX mouseY).zoomLevel ∧
      (applyPan view settings imageWidth imageHeight mouseX mouseY).zoomLevel ≤
        settings.maxZoom ∧
      |(applyPan view settings imageWidth imageHeight mouseX mouseY).panX| ≤
        max 0 (((imageWidth : ℚ) - (settings.windowWidth : ℚ) /
          (getFitScale settings.windowWidth settings.windowHeight imageWidth imageHeight *
            (applyPan view settings imageWidth imageHeight mouseX mouseY).zoomLevel)) / 2) ∧
      |(applyPan view settings imageWidth imageHeight mouseX mouseY).panY| ≤
        max 0 (((imageHeight : ℚ) - (settings.windowHeight : ℚ) /
          (getFitScale settings.windowWidth settings.windowHeight imageWidth imageHeight *
            (applyPan view settings imageWidth imageHeight mouseX mouseY).zoomLevel)) / 2)) := by
  have hclamp := stdClamp_bounds (view.zoomLevel * zoomFactor)
    settings.minZoom settings.maxZoom hz
  constructor
  · simp only [applyZoom, clampPan_zoomLevel]
    exact ⟨hclamp.1, hclamp.2, clampPan_panX_le _ _ _ _, clampPan_panY_le _ _ _ _⟩
  · have hzeq : (applyPan view settings imageWidth imageHeight mouseX mouseY).zoomLevel =
        view.zoomLevel := rfl
    refine ⟨hzeq, ?_, ?_, ?_, ?_⟩
    · rw [hzeq]
      exact hpre.1
    · rw [hzeq]
      exact hpre.2
    · exact clampPan_panX_le _ settings imageWidth imageHeight
    · exact clampPan_panY_le _ settings imageWidth imageHeight

/-- Witness for C10: fit-view state, 1000×1000 window, 500×500 preview
image, zoom limits [1, 10], wheel zoom-in by factor 1.15 at the window
center. -/
theorem claim_C10_view_invariants_witness :
    ((1 : ℚ) ≤ 10 ∧ ((1 : ℚ) ≤ 1 ∧ (1 : ℚ) ≤ 10)) ∧
    ((AppSettingsQ.minZoom ⟨1000, 1000, 1, 10⟩ ≤
        (applyZoom ⟨1, 0, 0, 0, 0⟩ ⟨1000, 1000, 1, 10⟩ 500 500 500 500
          (23/20)).zoomLevel ∧
      (applyZoom ⟨1, 0, 0, 0, 0⟩ ⟨1000, 1000, 1, 10⟩ 500 500 500 500
          (23/20)).zoomLevel ≤ AppSettingsQ.maxZoom ⟨1000, 1000, 1, 10⟩ ∧
      |(applyZoom ⟨1, 0, 0, 0, 0⟩ ⟨1000, 1000, 1, 10⟩ 500 500 500 500
          (23/20)).panX| ≤
        max 0 (((500 : ℚ) - (AppSettingsQ.windowWidth ⟨1000, 1000, 1, 10⟩ : ℚ) /
          (getFitScale 1000 1000 500 500 *
            (applyZoom ⟨1, 0, 0, 0, 0⟩ ⟨1000, 1000, 1, 10⟩ 500 500 500 500
              (23/20)).zoomLevel)) / 2) ∧
      |(applyZoom ⟨1, 0, 0, 0, 0⟩ ⟨1000, 1000, 1, 10⟩ 500 500 500 500
          (23/20)).panY| ≤
        max 0 (((500 : ℚ) - (AppSettingsQ.windowHeight ⟨1000, 1000, 1, 10⟩ : ℚ) /
          (getFitScale 1000 1000 500 500 *
            (applyZoom ⟨1, 0, 0, 0, 0⟩ ⟨1000, 1000, 1, 10⟩ 500 500 500 500
              (23/20)).zoomLevel)) / 2)) ∧
     ((applyPan ⟨1, 0, 0, 0, 0⟩ ⟨1000, 1000, 1, 10⟩ 500 500 500 500).zoomLevel = 1 ∧
      AppSettingsQ.minZoom ⟨1000, 1000, 1, 10⟩ ≤
        (applyPan ⟨1, 0, 0, 0, 0⟩ ⟨1000, 1000, 1, 10⟩ 500 500 500 500).zoomLevel ∧
      (applyPan ⟨1, 0, 0, 0, 0⟩ ⟨1000, 1000, 1, 10⟩ 500 500 500 500).zoomLevel ≤
        AppSettingsQ.maxZoom ⟨1000, 1000, 1, 10⟩ ∧
      |(applyPan ⟨1, 0, 0, 0, 0⟩ ⟨1000, 1000, 1, 10⟩ 500 500 500 500).panX| ≤
        max 0 (((500 : ℚ) - (AppSettingsQ.windowWidth ⟨1000, 1000, 1, 10⟩ : ℚ) /
          (getFitScale 1000 1000 500 500 *
            (applyPan ⟨1, 0, 0, 0, 0⟩ ⟨1000, 1000, 1, 10⟩ 500 500 500 500).zoomLevel)) / 2) ∧
      |(applyPan ⟨1, 0, 0, 0, 0⟩ ⟨1000, 1000, 1, 10⟩ 500 500 500 500).panY| ≤
        max 0 (((500 : ℚ) - (AppSettingsQ.windowHeight ⟨1000, 1000, 1, 10⟩ : ℚ) /
          (getFitScale 1000 1000 500 500 *
            (applyPan ⟨1, 0, 0, 0, 0⟩ ⟨1000, 1000, 1, 10⟩ 500 500 500 500).zoomLevel)) / 2))) :=
  ⟨⟨by norm_num, by norm_num, by norm_num⟩,
   claim_C10_view_invariants ⟨1, 0, 0, 0, 0⟩ ⟨1000, 1000, 1, 10⟩ 500 500 500 500 (23/20)
     (by norm_num) ⟨by norm_num, by norm_num⟩⟩

/-- isdigit in the default C locale: exactly the characters '0'..'9'. -/
def isDigitChar (c : Char) : Bool := decide ('0' ≤ c) && decide (c ≤ '9')

/-- Decimal value of a digit string, the value `std::stoi` computes for an
all-digit string. -/
def decimalValue (l : List Char) : ℕ :=
  l.foldl (fun acc c => 10 * acc + (c.toNat - 48)) 0

/-- INT_MAX: the largest value fitting in a 32-bit int, above which
`std::stoi` throws `out_of_range` (the digit strings here are unsigned, so
only overflow above INT_MAX can occur). -/
def intMax : ℕ := 2147483647

/-- Index of the last occurrence of `c` in `s`, the semantics of
`std::string::rfind(c)`; `rfind(c, pos)` is `rfindIdx (s.take (pos + 1)) c`
since it searches positions at or before `pos`. -/
def rfindIdx : List Char → Char → Option ℕ
  | [], _ => none
  | x :: xs, c =>
    match rfindIdx xs c with
    | some j => some (j + 1)
    | none => if x = c then some 0 else none

/-- Specification-side characterization: the last occurrence of `c` in `s`
is at index `j`. -/
def IsLastOccurrence (s : List Char) (c : Char) (j : ℕ) : Prop :=
  j < s.length ∧ s.getD j c = c ∧ ∀ m, m < s.length → j < m → s.getD m c ≠ c

instance instDecidableIsLastOccurrence (s : List Char) (c : Char) (j : ℕ) :
    Decidable (IsLastOccurrence s c j) := by
  unfold IsLastOccurrence
  infer_instance

/-- ExtractIndex (src/common/image_loader.cpp lines 15-35, duplicated at
src/display_image.cpp lines 686-706): find the last dot, then the last
underscore at or before it (`rfind('_', dotPos)`), take the substring
strictly between them, require every character to be a digit, then convert
with `std::stoi`, where an empty string throws `invalid_argument` and a
value above INT_MAX throws `out_of_range`, both caught and mapped to -1. -/
def extractIndex (s : List Char) : ℤ :=
  match rfindIdx s '.' with
  | none => -1
  | some dotPos =>
    match rfindIdx (s.take (dotPos + 1)) '_' with
    | none => -1
    | some lastUnderscore =>
      let numStr := (s.drop (lastUnderscore + 1)).take (dotPos - lastUnderscore - 1)
      if numStr.all isDigitChar then
        if numStr = [] then -1
        else if intMax < decimalValue numStr then -1
        else (decimalValue numStr : ℤ)
      else -1

/-- Failure conditions on the candidate digit substring: empty, containing a
non-digit, or not fitting in an int. -/
def BadNumStr (numStr : List Char) : Prop :=
  numStr = [] ∨ (∃ c ∈ numStr, isDigitChar c = false) ∨ intMax < decimalValue numStr

instance instDecidableBadNumStr (numStr : List Char) : Decidable (BadNumStr numStr) := by
  unfold BadNumStr
  infer_instance

theorem mem_of_getD_eq {s : List Char} {c : Char} {m : ℕ}
    (hm : m < s.length) (h : s.getD m c = c) : c ∈ s := by
  induction s generalizing m with
  | nil => simp at hm
  | cons x xs ih =>
      cases m with
      | zero =>
          rw [List.getD_cons_zero] at h
          rw [← h]
          exact List.mem_cons_self x xs
      | succ m1 =>
          rw [List.getD_cons_succ] at h
          exact List.mem_cons_of_mem _ (ih (by simpa using hm) h)

theorem isLastOccurrence_unique {s : List Char} {c : Char} {j1 j2 : ℕ}
    (h1 : IsLastOccurrence s c j1) (h2 : IsLastOccurrence s c j2) : j1 = j2 := by
  rcases lt_trichotomy j1 j2 with h | h | h
  · exact absurd h2.2.1 (h1.2.2 j2 h2.1 h)
  · exact h
  · exact absurd h1.2.1 (h2.2.2 j1 h1.1 h)

theorem rfindIdx_mem {s : List Char} {c : Char} {j : ℕ} :
    rfindIdx s c = some j → c ∈ s := by
  induction s generalizing j with
  | nil => intro h; simp [rfindIdx] at h
  | cons x xs ih =>
      intro h
      cases hx : rfindIdx xs c with
      | some j1 => exact List.mem_cons_of_mem _ (ih hx)
      | none =>
          rw [rfindIdx, hx] at h
          by_cases hxc : x = c
          · rw [← hxc]
            exact List.mem_cons_self x xs
          · simp [hxc] at h

theorem rfindIdx_eq_none_iff (s : List Char) (c : Char) :
    rfindIdx s c = none ↔ c ∉ s := by
  induction s with
  | nil => simp [rfindIdx]
  | cons x xs ih =>
      cases hx : rfindIdx xs c with
      | some j1 =>
          simp only [rfindIdx, hx]
          constructor
          · intro h; cases h
          · intro h; exact absurd (List.mem_cons_of_mem _ (rfindIdx_mem hx)) h
      | none =>
          have hnotin : c ∉ xs := ih.mp hx
          simp only [rfindIdx, hx]
          by_cases hxc : x = c
          · simp [hxc]
          · simp [hxc, List.mem_cons, hnotin]
            exact fun h => hxc h.symm

theorem isLastOccurrence_cons_succ {xs : List Char} {x c : Char} {j : ℕ}
    (h : IsLastOccurrence xs c j) : IsLastOccurrence (x :: xs) c (j + 1) := by
  obtain ⟨hlen, hget, hmax⟩ := h
  refine ⟨by simpa using Nat.succ_lt_succ hlen, by simpa using hget, ?_⟩
  intro m hm hjm
  cases m with
  | zero => omega
  | succ m1 =>
      rw [List.getD_cons_succ]
      exact hmax m1 (by simpa using hm) (by omega)

theorem rfindIdx_eq_some_iff (s : List Char) (c : Char) (j : ℕ) :
    rfindIdx s c = some j ↔ IsLastOccurrence s c j := by
  induction s generalizing j with
  | nil => simp [rfindIdx, IsLastOccurrence]
  | cons x xs ih =>
      cases hx : rfindIdx xs c with
      | some j1 =>
          have hlast : IsLastOccurrence xs c j1 := (ih j1).mp hx
          have hcand : IsLastOccurrence (x :: xs) c (j1 + 1) :=
            isLastOccurrence_cons_succ hlast
          simp only [rfindIdx, hx]
          constructor
          · intro h
            obtain rfl : j1 + 1 = j := by injection h
            exact hcand
          · intro hj
            rw [isLastOccurrence_unique hj hcand]
      | none =>
          have hnotin : c ∉ xs := (rfindIdx_eq_none_iff xs c).mp hx
          have hget : ∀ m, m < xs.length → xs.getD m c ≠ c := by
            intro m hm hc
            exact hnotin (mem_of_getD_eq hm hc)
          simp only [rfindIdx, hx]
          by_cases hxc : x = c
          · subst hxc
            simp only [if_pos rfl]
            constructor
            · intro h
              obtain rfl : (0 : ℕ) = j := by injection h
              refine ⟨Nat.succ_pos _, by simp, ?_⟩
              intro m hm hjm
              cases m with
              | zero => omega
              | succ m1 =>
                  rw [List.getD_cons_succ]
                  exact hget m1 (by simpa using hm)
            · intro hj
              obtain ⟨hlen, hgd, hmax⟩ := hj
              cases hj2 : j with
              | zero => rfl
              | succ j1 =>
                  exfalso
                  subst hj2
                  rw [List.getD_cons_succ] at hgd
                  exact hget j1 (by simpa using hlen) hgd
          · simp only [if_neg hxc]
            constructor
            · intro h; cases h
            · intro hj
              exfalso
              obtain ⟨hlen, hgd, hmax⟩ := hj
              cases j with
              | zero =>
                  rw [List.getD_cons_zero] at hgd
                  exact hxc hgd
              | succ j1 =>
                  rw [List.getD_cons_succ] at hgd
                  exact hget j1 (by simpa using hlen) hgd

/-- Claim C9: for every filename string, ExtractIndex returns -1 exactly
when the name contains no '.', or contains no '_' at or before the last '.',
or the substring strictly between the last such '_' and the last '.' is
empty, contains a non-digit character, or does not fit in an int; in every
other case it returns the decimal value of that digit substring. -/
theorem claim_C9_extract_index (s : List Char) :
    (extractIndex s = -1 ↔
      ('.' ∉ s ∨
       ∃ dotPos, IsLastOccurrence s '.' dotPos ∧
         ('_' ∉ s.take (dotPos + 1) ∨
          ∃ underscorePos, IsLastOccurrence (s.take (dotPos + 1)) '_' underscorePos ∧
            BadNumStr ((s.drop (underscorePos + 1)).take (dotPos - underscorePos - 1))))) ∧
    (∀ dotPos underscorePos,
      IsLastOccurrence s '.' dotPos →
      IsLastOccurrence (s.take (dotPos + 1)) '_' underscorePos →
      ¬ BadNumStr ((s.drop (underscorePos + 1)).take (dotPos - underscorePos - 1)) →
      extractIndex s =
        (decimalValue ((s.drop (underscorePos + 1)).take (dotPos - underscorePos - 1)) : ℤ)) := by
  constructor
  · cases hdot : rfindIdx s '.' with
    | none =>
        have hnd : '.' ∉ s := (rfindIdx_eq_none_iff s '.').mp hdot
        simp only [extractIndex, hdot]
        exact ⟨fun _ => Or.inl hnd, fun _ => trivial⟩
    | some d =>
        have hd : IsLastOccurrence s '.' d := (rfindIdx_eq_some_iff s '.' d).mp hdot
        have hdmem : '.' ∈ s := mem_of_getD_eq hd.1 hd.2.1
        cases hund : rfindIdx (s.take (d + 1)) '_' with
        | none =>
            have hnu : '_' ∉ s.take (d + 1) := (rfindIdx_eq_none_iff _ _).mp hund
            simp only [extractIndex, hdot, hund]
            exact ⟨fun _ => Or.inr ⟨d, hd, Or.inl hnu⟩, fun _ => trivial⟩
        | some u =>
            have hu : IsLastOccurrence (s.take (d + 1)) '_' u :=
              (rfindIdx_eq_some_iff _ _ _).mp hund
            have humem : '_' ∈ s.take (d + 1) := mem_of_getD_eq hu.1 hu.2.1
            have hval : extractIndex s = -1 ↔
                BadNumStr ((s.drop (u + 1)).take (d - u - 1)) := by
              simp only [extractIndex, hdot, hund]
              by_cases hall : ((s.drop (u + 1)).take (d - u - 1)).all isDigitChar
              · by_cases hemp : (s.drop (u + 1)).take (d - u - 1) = []
                · simp [hall, hemp, BadNumStr]
                · by_cases hovf : intMax < decimalValue ((s.drop (u + 1)).take (d - u - 1))
                  · simp only [hall, if_true, hemp, if_false, hovf]
                    simp [BadNumStr, hovf]
                  · simp only [hall, if_true, hemp, if_false, hovf]
                    constructor
                    · intro h
                      exfalso
                      have hge : (0 : ℤ) ≤
                          (decimalValue ((s.drop (u + 1)).take (d - u - 1)) : ℤ) :=
                        Int.natCast_nonneg _
                      omega
                    · intro hbad
                      exfalso
                      rcases hbad with h1 | h2 | h3
                      · exact hemp h1
                      · obtain ⟨cc, hcc, hccd⟩ := h2
                        have := List.all_eq_true.mp hall cc hcc
                        rw [hccd] at this
                        cases this
                      · exact hovf h3
              · constructor
                · intro _
                  refine Or.inr (Or.inl ?_)
                  rw [List.all_eq_true] at hall
                  push_neg at hall
                  obtain ⟨cc, hcc, hccd⟩ := hall
                  exact ⟨cc, hcc, by simpa using hccd⟩
                · intro _
                  simp [hall]
            rw [hval]
            constructor
            · intro hbad
              exact Or.inr ⟨d, hd, Or.inr ⟨u, hu, hbad⟩⟩
            · rintro (hnd | ⟨d2, hd2, hrest⟩)
              · exact absurd hdmem hnd
              · obtain rfl : d2 = d := isLastOccurrence_unique hd2 hd
                rcases hrest with hnu | ⟨u2, hu2, hbad⟩
                · exact absurd humem hnu
                · obtain rfl : u2 = u := isLastOccurrence_unique hu2 hu
                  exact hbad
  · intro dotPos underscorePos hdl hul hnbad
    cases hdot : rfindIdx s '.' with
    | none =>
        exact absurd (mem_of_getD_eq hdl.1 hdl.2.1)
          ((rfindIdx_eq_none_iff s '.').mp hdot)
    | some d =>
        obtain rfl : dotPos = d :=
          isLastOccurrence_unique hdl ((rfindIdx_eq_some_iff s '.' d).mp hdot)
        cases hund : rfindIdx (s.take (dotPos + 1)) '_' with
        | none =>
            exact absurd (mem_of_getD_eq hul.1 hul.2.1)
              ((rfindIdx_eq_none_iff _ _).mp hund)
        | some u =>
            obtain rfl : underscorePos = u :=
              isLastOccurrence_unique hul ((rfindIdx_eq_some_iff _ _ _).mp hund)
            rw [BadNumStr] at hnbad
            push_neg at hnbad
            obtain ⟨hne, hdig, hovf⟩ := hnbad
            have hall : ((s.drop (underscorePos + 1)).take
                (dotPos - underscorePos - 1)).all isDigitChar = true := by
              rw [List.all_eq_true]
              intro cc hcc
              have := hdig cc hcc
              simpa using this
            have hovf2 : ¬ intMax <
                decimalValue ((s.drop (underscorePos + 1)).take (dotPos - underscorePos - 1)) :=
              not_lt.mpr hovf
            simp only [extractIndex, hdot, hund]
            rw [if_pos hall, if_neg hne, if_neg hovf2]

/-- Witness for C9: the filename `frame_123.png`, whose last dot is at index
9 and last underscore before it at index 5, yielding the digit substring
`123`. -/
theorem claim_C9_extract_index_witness :
    IsLastOccurrence ("frame_123.png".toList) '.' 9 ∧
    IsLastOccurrence (("frame_123.png".toList).take 10) '_' 5 ∧
    ¬ BadNumStr ((("frame_123.png".toList).drop 6).take 3) ∧
    extractIndex ("frame_123.png".toList) =
      (decimalValue ((("frame_123.png".toList).drop 6).take 3) : ℤ) :=
  ⟨by decide, by decide, by decide,
   (claim_C9_extract_index ("frame_123.png".toList)).2 9 5
     (by decide) (by decide) (by decide)⟩

end PngViewer
